import Mathlib

/-!
Verification of the interval aggregation and timeline layout engine of the
contratos timeline application.  Dates are embedded with a rata-die style day
number: pandas timestamps compare exactly as these day numbers do, and the
field Duracion of the source is the difference of the day numbers of the two
dates of a record.
-/

namespace Contratos

/-- Gregorian leap year test, the calendar used by pandas timestamps. -/
def isLeap (y : Nat) : Bool := (y % 4 == 0 && y % 100 != 0) || y % 400 == 0

/-- Number of days of month m, 1 to 12, given the leap flag of the year. -/
def daysInMonth (leap : Bool) : Nat → Nat
  | 1 => 31
  | 2 => if leap then 29 else 28
  | 3 => 31
  | 4 => 30
  | 5 => 31
  | 6 => 30
  | 7 => 31
  | 8 => 31
  | 9 => 30
  | 10 => 31
  | 11 => 30
  | 12 => 31
  | _ => 0

/-- Days of the year that elapse before month m starts. -/
def daysBeforeMonth (leap : Bool) : Nat → Nat
  | 0 => 0
  | m + 1 => if m = 0 then 0 else daysBeforeMonth leap m + daysInMonth leap m

/-- Number of leap years in the range 1..y. -/
def leapsBefore (y : Nat) : Nat := y / 4 - y / 100 + y / 400

/-- Day number of the last day of December of the previous year. -/
def yearBase (y : Nat) : Nat := 365 * (y - 1) + leapsBefore (y - 1)

/-- A calendar date. -/
structure Date where
  year : Nat
  month : Nat
  day : Nat
deriving DecidableEq, Repr

/-- Rata-die style day number of a date; pandas timestamps order like it. -/
def rataDie (d : Date) : Nat :=
  yearBase d.year + daysBeforeMonth (isLeap d.year) d.month + d.day

/-- A date is valid when its month and day lie in calendar range. -/
def Date.Valid (d : Date) : Prop :=
  1 ≤ d.year ∧ 1 ≤ d.month ∧ d.month ≤ 12 ∧ 1 ≤ d.day ∧
    d.day ≤ daysInMonth (isLeap d.year) d.month

instance (d : Date) : Decidable d.Valid := by
  unfold Date.Valid
  infer_instance

/-- Comparison of two dates, as pandas compares the underlying timestamps. -/
def dateLE (a b : Date) : Bool := decide (rataDie a ≤ rataDie b)

/-- January the first of a year. -/
def jan1 (y : Nat) : Date := ⟨y, 1, 1⟩

/-- The first day of the month of a date. -/
def floorMonth (d : Date) : Date := ⟨d.year, d.month, 1⟩

/-- Linear index of the month of a date. -/
def monthIdx (d : Date) : Nat := 12 * d.year + (d.month - 1)

/-- The first-of-month date of a linear month index. -/
def firstOfIdx (k : Nat) : Date := ⟨k / 12, k % 12 + 1, 1⟩

/-- The first day of the following month, with December rollover. -/
def succMonth (d : Date) : Date :=
  if d.month = 12 then ⟨d.year + 1, 1, 1⟩ else ⟨d.year, d.month + 1, 1⟩

lemma daysInMonth_pos (leap : Bool) (m : Nat) (h1 : 1 ≤ m) (h2 : m ≤ 12) :
    0 < daysInMonth leap m := by
  interval_cases m <;> cases leap <;> decide

lemma daysBeforeMonth_succ (leap : Bool) (m : Nat) (h : 1 ≤ m) :
    daysBeforeMonth leap (m + 1) = daysBeforeMonth leap m + daysInMonth leap m := by
  have hm : ¬ m = 0 := by omega
  simp [daysBeforeMonth, hm]

lemma daysBeforeMonth_one (leap : Bool) : daysBeforeMonth leap 1 = 0 := by
  simp [daysBeforeMonth]

lemma daysBeforeMonth_add_le (leap : Bool) (m : Nat) (h1 : 1 ≤ m) (h2 : m ≤ 12) :
    daysBeforeMonth leap m + daysInMonth leap m ≤ 365 + (if leap then 1 else 0) := by
  interval_cases m <;> cases leap <;> decide

lemma isLeap_iff (y : Nat) :
    isLeap y = true ↔ ((y % 4 = 0 ∧ y % 100 ≠ 0) ∨ y % 400 = 0) := by
  simp [isLeap, Bool.or_eq_true, Bool.and_eq_true, beq_iff_eq, bne_iff_ne]

lemma leapsBefore_succ (n : Nat) :
    leapsBefore (n + 1) = leapsBefore n + (if isLeap (n + 1) then 1 else 0) := by
  have hiff := isLeap_iff (n + 1)
  unfold leapsBefore
  cases hL : isLeap (n + 1) <;> rw [hL] at hiff <;> simp at hiff <;> simp [hL] <;> omega

lemma yearBase_succ (y : Nat) (h : 1 ≤ y) :
    yearBase (y + 1) = yearBase y + 365 + (if isLeap y then 1 else 0) := by
  obtain ⟨m, rfl⟩ : ∃ m, y = m + 1 := ⟨y - 1, by omega⟩
  unfold yearBase
  simp only [Nat.add_sub_cancel]
  rw [leapsBefore_succ m]
  cases hL : isLeap (m + 1) <;> simp [hL] <;> omega

lemma leapsBefore_mono {a b : Nat} (h : a ≤ b) : leapsBefore a ≤ leapsBefore b := by
  induction b, h using Nat.le_induction with
  | base => exact le_refl _
  | succ n hn ih =>
    refine le_trans ih ?_
    rw [leapsBefore_succ]
    split <;> omega

lemma yearBase_mono {a b : Nat} (h : a ≤ b) : yearBase a ≤ yearBase b := by
  unfold yearBase
  have h1 : leapsBefore (a - 1) ≤ leapsBefore (b - 1) := leapsBefore_mono (by omega)
  have h2 : 365 * (a - 1) ≤ 365 * (b - 1) := by
    apply Nat.mul_le_mul_left
    omega
  omega

lemma rataDie_year_bounds (d : Date) (h : d.Valid) :
    yearBase d.year + 1 ≤ rataDie d ∧ rataDie d ≤ yearBase (d.year + 1) := by
  obtain ⟨hy, hm1, hm2, hd1, hd2⟩ := h
  constructor
  · unfold rataDie
    omega
  · have hb := daysBeforeMonth_add_le (isLeap d.year) d.month hm1 hm2
    have hs := yearBase_succ d.year hy
    unfold rataDie
    cases hL : isLeap d.year <;> rw [hL] at hb hs hd2 <;> simp at hb hs <;> omega

lemma rataDie_jan1 (y : Nat) : rataDie (jan1 y) = yearBase y + 1 := by
  simp [rataDie, jan1, daysBeforeMonth]

lemma rataDie_pos (d : Date) (h : d.Valid) : 1 ≤ rataDie d := by
  have := (rataDie_year_bounds d h).1
  omega

lemma jan1_gt_iff (a : Date) (ha : a.Valid) (Y : Nat) :
    rataDie a < rataDie (jan1 Y) ↔ a.year + 1 ≤ Y := by
  obtain ⟨h1, h2⟩ := rataDie_year_bounds a ha
  rw [rataDie_jan1]
  constructor
  · intro h
    by_contra hc
    push_neg at hc
    have := yearBase_mono (show Y ≤ a.year by omega)
    omega
  · intro h
    have := yearBase_mono h
    omega

lemma jan1_le_iff (b : Date) (hb : b.Valid) (Y : Nat) :
    rataDie (jan1 Y) ≤ rataDie b ↔ Y ≤ b.year := by
  obtain ⟨h1, h2⟩ := rataDie_year_bounds b hb
  rw [rataDie_jan1]
  constructor
  · intro h
    by_contra hc
    push_neg at hc
    have := yearBase_mono (show b.year + 1 ≤ Y by omega)
    omega
  · intro h
    have := yearBase_mono h
    omega

lemma monthIdx_firstOfIdx (k : Nat) : monthIdx (firstOfIdx k) = k := by
  simp only [monthIdx, firstOfIdx]
  omega

lemma firstOfIdx_monthIdx (d : Date) (h1 : 1 ≤ d.month) (h2 : d.month ≤ 12) :
    firstOfIdx (monthIdx d) = floorMonth d := by
  simp only [firstOfIdx, monthIdx, floorMonth, Date.mk.injEq]
  refine ⟨by omega, by omega, trivial⟩

lemma firstOfIdx_succ (k : Nat) : firstOfIdx (k + 1) = succMonth (firstOfIdx k) := by
  simp only [firstOfIdx, succMonth]
  by_cases h : k % 12 = 11
  · rw [if_pos (by omega)]
    simp only [Date.mk.injEq]
    refine ⟨by omega, by omega, trivial⟩
  · rw [if_neg (by omega)]
    simp only [Date.mk.injEq]
    refine ⟨by omega, by omega, trivial⟩

lemma firstOfIdx_valid (k : Nat) (h : 12 ≤ k) : (firstOfIdx k).Valid := by
  simp only [firstOfIdx, Date.Valid]
  refine ⟨by omega, by omega, by omega, le_refl 1, daysInMonth_pos _ _ (by omega) (by omega)⟩

lemma floorMonth_valid (d : Date) (h : d.Valid) : (floorMonth d).Valid := by
  obtain ⟨hy, hm1, hm2, hd1, hd2⟩ := h
  exact ⟨hy, hm1, hm2, le_refl 1, daysInMonth_pos _ _ hm1 hm2⟩

lemma monthIdx_floorMonth (d : Date) : monthIdx (floorMonth d) = monthIdx d := rfl

lemma monthIdx_ge (d : Date) (h : d.Valid) : 12 ≤ monthIdx d := by
  obtain ⟨hy, _, _, _, _⟩ := h
  simp only [monthIdx]
  omega

lemma rataDie_floorMonth_le (d : Date) (h : d.Valid) :
    rataDie (floorMonth d) ≤ rataDie d := by
  obtain ⟨hy, hm1, hm2, hd1, hd2⟩ := h
  simp only [rataDie, floorMonth]
  omega

lemma rataDie_lt_firstOfIdx_succ (d : Date) (h : d.Valid) :
    rataDie d < rataDie (firstOfIdx (monthIdx d + 1)) := by
  obtain ⟨hy, hm1, hm2, hd1, hd2⟩ := h
  by_cases hm : d.month = 12
  · have he : firstOfIdx (monthIdx d + 1) = jan1 (d.year + 1) := by
      simp only [firstOfIdx, monthIdx, jan1, hm, Date.mk.injEq]
      refine ⟨by omega, by omega, trivial⟩
    rw [he, rataDie_jan1]
    have h2 := (rataDie_year_bounds d ⟨hy, hm1, hm2, hd1, hd2⟩).2
    omega
  · have he : firstOfIdx (monthIdx d + 1) = ⟨d.year, d.month + 1, 1⟩ := by
      simp only [firstOfIdx, monthIdx, Date.mk.injEq]
      refine ⟨by omega, by omega, trivial⟩
    rw [he]
    simp only [rataDie]
    have hrec := daysBeforeMonth_succ (isLeap d.year) d.month hm1
    omega

lemma rataDie_firstOfIdx_le (k1 k2 : Nat) (h12 : 12 ≤ k1) (h : k1 ≤ k2) :
    rataDie (firstOfIdx k1) ≤ rataDie (firstOfIdx k2) := by
  induction k2, h using Nat.le_induction with
  | base => exact le_refl _
  | succ n hn ih =>
    have hv : (firstOfIdx n).Valid := firstOfIdx_valid n (by omega)
    have hlt := rataDie_lt_firstOfIdx_succ _ hv
    rw [monthIdx_firstOfIdx] at hlt
    omega

lemma rataDie_lt_of_monthIdx_lt (a b : Date) (ha : a.Valid) (hb : b.Valid)
    (h : monthIdx a < monthIdx b) : rataDie a < rataDie b := by
  have h1 := rataDie_lt_firstOfIdx_succ a ha
  have h2 : rataDie (firstOfIdx (monthIdx a + 1)) ≤ rataDie (firstOfIdx (monthIdx b)) :=
    rataDie_firstOfIdx_le _ _ (by have := monthIdx_ge a ha; omega) (by omega)
  have h3 : rataDie (firstOfIdx (monthIdx b)) ≤ rataDie b := by
    rw [firstOfIdx_monthIdx b hb.2.1 hb.2.2.1]
    exact rataDie_floorMonth_le b hb
  omega

lemma monthIdx_le_of_rataDie_le (a b : Date) (ha : a.Valid) (hb : b.Valid)
    (h : rataDie a ≤ rataDie b) : monthIdx a ≤ monthIdx b := by
  by_contra hc
  push_neg at hc
  have := rataDie_lt_of_monthIdx_lt b a hb ha hc
  omega

/-- The monthly sampling grid, as pandas date_range with freq MS produces it
from two first-of-month endpoints: all month starts from a to b inclusive. -/
def monthStarts (a b : Date) : List Date :=
  (List.range (monthIdx b + 1 - monthIdx a)).map (fun j => firstOfIdx (monthIdx a + j))

lemma monthStarts_head (a b : Date) (h : monthIdx a ≤ monthIdx b) :
    (monthStarts a b).head? = some (firstOfIdx (monthIdx a)) := by
  obtain ⟨m, hm⟩ : ∃ m, monthIdx b + 1 - monthIdx a = m + 1 := ⟨monthIdx b - monthIdx a, by omega⟩
  simp only [monthStarts, hm, List.range_succ_eq_map, List.map_cons, List.head?_cons,
    Nat.add_zero]

lemma monthStarts_getLast (a b : Date) (h : monthIdx a ≤ monthIdx b) :
    (monthStarts a b).getLast? = some (firstOfIdx (monthIdx b)) := by
  obtain ⟨m, hm⟩ : ∃ m, monthIdx b + 1 - monthIdx a = m + 1 := ⟨monthIdx b - monthIdx a, by omega⟩
  have hm2 : monthIdx a + m = monthIdx b := by omega
  simp only [monthStarts, hm, List.range_succ, List.map_append, List.map_cons, List.map_nil]
  rw [List.getLast?_concat, hm2]

lemma monthStarts_chain (a b : Date) :
    List.Chain' (fun x y => y = succMonth x ∧ monthIdx y = monthIdx x + 1)
      (monthStarts a b) := by
  rw [List.chain'_iff_get]
  intro i hi
  simp only [monthStarts, List.length_map, List.length_range] at hi
  simp only [monthStarts, List.get_eq_getElem, List.getElem_map, List.getElem_range]
  constructor
  · have := firstOfIdx_succ (monthIdx a + i)
    rw [show monthIdx a + (i + 1) = monthIdx a + i + 1 by omega]
    exact this
  · rw [monthIdx_firstOfIdx, monthIdx_firstOfIdx]
    omega

lemma monthStarts_length (a b : Date) :
    (monthStarts a b).length = monthIdx b + 1 - monthIdx a := by
  simp [monthStarts]

lemma monthStarts_getElem (a b : Date) (i : Nat) (hi : i < (monthStarts a b).length) :
    (monthStarts a b)[i] = firstOfIdx (monthIdx a + i) := by
  simp [monthStarts]

/-- A raw row of the Excel table after date parsing: a field is none when the
cell is missing or failed to parse, exactly the rows that dropna removes. -/
structure RawRecord where
  dni : Option String
  categoria : Option String
  falta : Option Date
  fbaja : Option Date
deriving DecidableEq, Repr

/-- A surviving row of the dataframe produced by load_data. -/
structure Record where
  dni : String
  categoria : String
  falta : Date
  fbaja : Date
  duracion : Int
deriving DecidableEq, Repr

/-- Left pad with zeros to width 9, the str.zfill(9) normalisation. -/
def zfill9 (s : String) : String :=
  if 9 ≤ s.length then s else String.mk (List.replicate (9 - s.length) '0') ++ s

/-- Row level part of load_data: dropna on the four columns, DNI zfill,
category strip, Duracion in days, and the filter 0 <= Duracion <= 10000. -/
def sanitizeRecord (r : RawRecord) : Option Record :=
  match r.dni, r.categoria, r.falta, r.fbaja with
  | some d, some c, some fa, some fb =>
    let dur : Int := (rataDie fb : Int) - (rataDie fa : Int)
    if 0 ≤ dur ∧ dur ≤ 10000 then
      some { dni := zfill9 d, categoria := c.trim, falta := fa, fbaja := fb, duracion := dur }
    else none
  | _, _, _, _ => none

/-- The row pipeline of load_data over the whole table body. -/
def sanitize (rows : List RawRecord) : List Record := rows.filterMap sanitizeRecord

/-- The raw Excel table: which of the required columns are present, plus the
parsed rows.  A missing column makes the column accesses of load_data raise. -/
structure RawTable where
  hasDNI : Bool
  hasCATEGORIA : Bool
  hasFalta : Bool
  hasFbaja : Bool
  rows : List RawRecord

/-- load_data: on any exception, including a missing required column, the
whole batch is dropped and None is returned; otherwise the sanitised rows. -/
def load_data (t : RawTable) : Option (List Record) :=
  if t.hasDNI && t.hasCATEGORIA && t.hasFalta && t.hasFbaja then
    some (sanitize t.rows)
  else none

/-- One step of the running minimum of a date series, as Series.min. -/
def minStep (acc : Option Date) (d : Date) : Option Date :=
  match acc with
  | none => some d
  | some m => if rataDie d < rataDie m then some d else some m

/-- Minimum of a date column; none models the NaT of an empty series. -/
def minD (l : List Date) : Option Date := l.foldl minStep none

/-- One step of the running maximum of a date series, as Series.max. -/
def maxStep (acc : Option Date) (d : Date) : Option Date :=
  match acc with
  | none => some d
  | some m => if rataDie m < rataDie d then some d else some m

/-- Maximum of a date column; none models the NaT of an empty series. -/
def maxD (l : List Date) : Option Date := l.foldl maxStep none

lemma minD_go (l : List Date) : ∀ a : Date,
    ∃ m, l.foldl minStep (some a) = some m ∧ (m = a ∨ m ∈ l) ∧
      rataDie m ≤ rataDie a ∧ ∀ x ∈ l, rataDie m ≤ rataDie x := by
  induction l with
  | nil => exact fun a => ⟨a, rfl, Or.inl rfl, le_refl _, by simp⟩
  | cons d t ih =>
    intro a
    rw [List.foldl_cons]
    by_cases h : rataDie d < rataDie a
    · have hstep : minStep (some a) d = some d := by simp [minStep, h]
      rw [hstep]
      obtain ⟨m, h1, h2, h3, h4⟩ := ih d
      refine ⟨m, h1, ?_, by omega, ?_⟩
      · rcases h2 with h2 | h2
        · exact Or.inr (by simp [h2])
        · exact Or.inr (by simp [h2])
      · intro x hx
        rcases List.mem_cons.mp hx with hx | hx
        · subst hx
          omega
        · exact h4 x hx
    · have hstep : minStep (some a) d = some a := by simp [minStep, h]
      rw [hstep]
      obtain ⟨m, h1, h2, h3, h4⟩ := ih a
      refine ⟨m, h1, ?_, h3, ?_⟩
      · rcases h2 with h2 | h2
        · exact Or.inl h2
        · exact Or.inr (by simp [h2])
      · intro x hx
        rcases List.mem_cons.mp hx with hx | hx
        · subst hx
          omega
        · exact h4 x hx

lemma minD_spec (l : List Date) (m : Date) (h : minD l = some m) :
    m ∈ l ∧ ∀ x ∈ l, rataDie m ≤ rataDie x := by
  cases l with
  | nil => simp [minD] at h
  | cons d t =>
    have hm : minD (d :: t) = t.foldl minStep (some d) := by
      simp [minD, minStep]
    rw [hm] at h
    obtain ⟨m2, h1, h2, h3, h4⟩ := minD_go t d
    rw [h1] at h
    injection h with h
    subst h
    constructor
    · rcases h2 with h2 | h2
      · simp [h2]
      · simp [h2]
    · intro x hx
      rcases List.mem_cons.mp hx with hx | hx
      · subst hx
        exact h3
      · exact h4 x hx

lemma maxD_go (l : List Date) : ∀ a : Date,
    ∃ m, l.foldl maxStep (some a) = some m ∧ (m = a ∨ m ∈ l) ∧
      rataDie a ≤ rataDie m ∧ ∀ x ∈ l, rataDie x ≤ rataDie m := by
  induction l with
  | nil => exact fun a => ⟨a, rfl, Or.inl rfl, le_refl _, by simp⟩
  | cons d t ih =>
    intro a
    rw [List.foldl_cons]
    by_cases h : rataDie a < rataDie d
    · have hstep : maxStep (some a) d = some d := by simp [maxStep, h]
      rw [hstep]
      obtain ⟨m, h1, h2, h3, h4⟩ := ih d
      refine ⟨m, h1, ?_, by omega, ?_⟩
      · rcases h2 with h2 | h2
        · exact Or.inr (by simp [h2])
        · exact Or.inr (by simp [h2])
      · intro x hx
        rcases List.mem_cons.mp hx with hx | hx
        · subst hx
          omega
        · exact h4 x hx
    · have hstep : maxStep (some a) d = some a := by simp [maxStep, h]
      rw [hstep]
      obtain ⟨m, h1, h2, h3, h4⟩ := ih a
      refine ⟨m, h1, ?_, h3, ?_⟩
      · rcases h2 with h2 | h2
        · exact Or.inl h2
        · exact Or.inr (by simp [h2])
      · intro x hx
        rcases List.mem_cons.mp hx with hx | hx
        · subst hx
          omega
        · exact h4 x hx

lemma maxD_spec (l : List Date) (m : Date) (h : maxD l = some m) :
    m ∈ l ∧ ∀ x ∈ l, rataDie x ≤ rataDie m := by
  cases l with
  | nil => simp [maxD] at h
  | cons d t =>
    have hm : maxD (d :: t) = t.foldl maxStep (some d) := by
      simp [maxD, maxStep]
    rw [hm] at h
    obtain ⟨m2, h1, h2, h3, h4⟩ := maxD_go t d
    rw [h1] at h
    injection h with h
    subst h
    constructor
    · rcases h2 with h2 | h2
      · simp [h2]
      · simp [h2]
    · intro x hx
      rcases List.mem_cons.mp hx with hx | hx
      · subst hx
        exact h3
      · exact h4 x hx

/-- calculate_active_contracts_by_month.  The None and empty dataframe guards
return an empty mapping; an empty post-filter set gives NaT endpoints and
date_range raises, modelled by the error result.  For each selected category
the counts are the sizes of the closed containment filters at each month. -/
def calculate_active_contracts_by_month (df : Option (List Record)) (cats : List String) :
    Except String (List (String × (List Date × List Nat))) :=
  match df with
  | none => .ok []
  | some rows =>
    if rows.isEmpty then .ok []
    else
      let filt := rows.filter (fun r => decide (r.categoria ∈ cats))
      match minD (filt.map (fun r => r.falta)), maxD (filt.map (fun r => r.fbaja)) with
      | some fmin, some fmax =>
        let meses := monthStarts (floorMonth fmin) (floorMonth fmax)
        .ok (cats.map (fun c =>
          let dfc := filt.filter (fun r => r.categoria == c)
          (c, (meses, meses.map (fun m =>
            (dfc.filter (fun r => dateLE r.falta m && dateLE m r.fbaja)).length)))))
      | _, _ => .error "ValueError: Neither start nor end can be NaT"


/-- One plotted bar of the detailed timeline: category, person, the two
dates of the contract, and the vertical row it is drawn at. -/
structure Trace where
  categoria : String
  dni : String
  falta : Date
  fbaja : Date
  row : Nat
deriving DecidableEq, Repr

/-- Unique DNI values in order of first appearance, as Series.unique. -/
def uniqueDnis (l : List Record) : List String :=
  l.foldl (fun acc r => if decide (r.dni ∈ acc) then acc else acc ++ [r.dni]) []

/-- The bars of one person: every contract of that DNI at the current row. -/
def tracesFor (cat : String) (dfc : List Record) (dni : String) (y : Nat) : List Trace :=
  (dfc.filter (fun r => r.dni == dni)).map
    (fun r => { categoria := cat, dni := dni, falta := r.falta, fbaja := r.fbaja, row := y })

/-- Inner loop body of create_timeline_chart: emit all bars of one DNI at the
current row, then advance the row counter by one (once per person). -/
def dniStep (cat : String) (dfc : List Record) (p : Nat × List Trace) (dni : String) :
    Nat × List Trace :=
  (p.1 + 1, p.2 ++ tracesFor cat dfc dni p.1)

/-- Outer loop body of create_timeline_chart: skip a category with no rows,
otherwise record its anchor position, lay out its persons, then add the two
row separator. -/
def layoutStep (filt : List Record) (st : Nat × List Trace × List (String × Nat))
    (cat : String) : Nat × List Trace × List (String × Nat) :=
  let dfc := filt.filter (fun r => r.categoria == cat)
  if dfc.isEmpty then st
  else
    let p := (uniqueDnis dfc).foldl (dniStep cat dfc) (st.1, st.2.1)
    (p.1 + 2, p.2, st.2.2 ++ [(cat, st.1)])

/-- create_timeline_chart reduced to its layout content: the list of bars with
their rows, the category anchor positions, and the final row counter. -/
def create_timeline_chart (df : Option (List Record)) (cats : List String) :
    Option (List Trace × List (String × Nat) × Nat) :=
  match df with
  | none => none
  | some rows =>
    if rows.isEmpty || cats.isEmpty then none
    else
      let filt := rows.filter (fun r => decide (r.categoria ∈ cats))
      if filt.isEmpty then none
      else
        let st := cats.foldl (layoutStep filt) (0, [], [])
        some (st.2.1, st.2.2, st.1)

/-- Python range(a.year + 1, b.year + 1), the year lines of the timeline. -/
def yearMarks (a b : Date) : List Nat := List.range' (a.year + 1) (b.year - a.year)

/-- The year lines drawn by create_timeline_chart, from the extent of the
filtered data; empty when the chart is not drawn at all. -/
def timelineYearMarks (df : Option (List Record)) (cats : List String) : List Nat :=
  match df with
  | none => []
  | some rows =>
    if rows.isEmpty || cats.isEmpty then []
    else
      let filt := rows.filter (fun r => decide (r.categoria ∈ cats))
      if filt.isEmpty then []
      else
        match minD (filt.map (fun r => r.falta)), maxD (filt.map (fun r => r.fbaja)) with
        | some fmin, some fmax => yearMarks fmin fmax
        | _, _ => []

/-- Denotation of Python sorted(set(l)) on naturals: the ascending list of the
distinct values occurring in l. -/
def pySortedSet (l : List Nat) : List Nat :=
  (List.range (l.foldr max 0 + 1)).filter (fun x => decide (x ∈ l))

/-- The dashed year lines of create_active_contracts_chart: the sorted set of
the years of the month grid of the first series, dropping the first year. -/
def activeChartYearMarks (datos : List (String × (List Date × List Nat))) : List Nat :=
  match datos with
  | [] => []
  | (_, (ms, _)) :: _ => (pySortedSet (ms.map (fun d => d.year))).drop 1

/-- Recursive form of the person loop: the bars of each DNI in order, the row
advancing by one per person. -/
def rowsForDnis (cat : String) (dfc : List Record) (y : Nat) : List String → List Trace
  | [] => []
  | d :: ds => tracesFor cat dfc d y ++ rowsForDnis cat dfc (y + 1) ds

/-- Recursive form of the category loop of create_timeline_chart. -/
def layoutCats (filt : List Record) (y : Nat) :
    List String → List Trace × List (String × Nat) × Nat
  | [] => ([], [], y)
  | c :: cs =>
    let dfc := filt.filter (fun r => r.categoria == c)
    if dfc.isEmpty then layoutCats filt y cs
    else
      let res := layoutCats filt (y + (uniqueDnis dfc).length + 2) cs
      (rowsForDnis c dfc y (uniqueDnis dfc) ++ res.1, (c, y) :: res.2.1, res.2.2)

lemma dniFold_eq (cat : String) (dfc : List Record) (ds : List String) :
    ∀ (y : Nat) (ts : List Trace),
      ds.foldl (dniStep cat dfc) (y, ts) = (y + ds.length, ts ++ rowsForDnis cat dfc y ds) := by
  induction ds with
  | nil =>
    intro y ts
    simp [rowsForDnis]
  | cons d t ih =>
    intro y ts
    rw [List.foldl_cons]
    have hstep : dniStep cat dfc (y, ts) d = (y + 1, ts ++ tracesFor cat dfc d y) := rfl
    rw [hstep, ih]
    simp only [rowsForDnis, List.append_assoc, Prod.mk.injEq, List.length_cons]
    exact ⟨by omega, trivial⟩

lemma layout_foldl_eq (filt : List Record) (cats : List String) :
    ∀ (y : Nat) (ts : List Trace) (ps : List (String × Nat)),
      cats.foldl (layoutStep filt) (y, ts, ps) =
        ((layoutCats filt y cats).2.2, ts ++ (layoutCats filt y cats).1,
          ps ++ (layoutCats filt y cats).2.1) := by
  induction cats with
  | nil =>
    intro y ts ps
    simp [layoutCats]
  | cons c cs ih =>
    intro y ts ps
    rw [List.foldl_cons]
    cases h : (filt.filter (fun r => r.categoria == c)).isEmpty
    · have hstep : layoutStep filt (y, ts, ps) c =
          (y + (uniqueDnis (filt.filter (fun r => r.categoria == c))).length + 2,
           ts ++ rowsForDnis c (filt.filter (fun r => r.categoria == c)) y
             (uniqueDnis (filt.filter (fun r => r.categoria == c))),
           ps ++ [(c, y)]) := by
        simp only [layoutStep, h, Bool.false_eq_true, if_false]
        rw [dniFold_eq]
      rw [hstep, ih]
      simp only [layoutCats, h, Bool.false_eq_true, if_false, List.append_assoc,
        List.singleton_append, Prod.mk.injEq]
    · have hstep : layoutStep filt (y, ts, ps) c = (y, ts, ps) := by
        simp [layoutStep, h]
      rw [hstep, ih]
      simp [layoutCats, h]

lemma mem_tracesFor (cat : String) (dfc : List Record) (dni : String) (y : Nat) (t : Trace)
    (h : t ∈ tracesFor cat dfc dni y) : t.categoria = cat ∧ t.dni = dni ∧ t.row = y := by
  simp only [tracesFor, List.mem_map] at h
  obtain ⟨r, hr, he⟩ := h
  subst he
  exact ⟨rfl, rfl, rfl⟩

lemma uniqueDnis_go (l : List Record) :
    ∀ acc : List String, acc.Nodup →
      (l.foldl (fun acc r => if decide (r.dni ∈ acc) then acc else acc ++ [r.dni]) acc).Nodup := by
  induction l with
  | nil => exact fun acc h => h
  | cons r t ih =>
    intro acc h
    rw [List.foldl_cons]
    by_cases hm : r.dni ∈ acc
    · simp only [hm, decide_True, if_true]
      exact ih acc h
    · simp only [hm, decide_False, Bool.false_eq_true, if_false]
      apply ih
      rw [List.nodup_append]
      exact ⟨h, List.nodup_singleton _, by simp [hm]⟩

lemma uniqueDnis_nodup (l : List Record) : (uniqueDnis l).Nodup :=
  uniqueDnis_go l [] List.nodup_nil

lemma mem_rowsForDnis (cat : String) (dfc : List Record) (ds : List String) :
    ∀ (y : Nat) (t : Trace), t ∈ rowsForDnis cat dfc y ds →
      t.categoria = cat ∧ t.dni ∈ ds ∧ y ≤ t.row ∧ t.row < y + ds.length ∧
        (ds.Nodup → t.row = y + ds.indexOf t.dni) := by
  induction ds with
  | nil =>
    intro y t h
    simp [rowsForDnis] at h
  | cons d tl ih =>
    intro y t h
    simp only [rowsForDnis, List.mem_append] at h
    rcases h with h | h
    · obtain ⟨hc, hd, hr⟩ := mem_tracesFor _ _ _ _ _ h
      refine ⟨hc, by simp [hd], by omega, by simp [List.length_cons]; omega, ?_⟩
      intro hnd
      rw [hd, List.indexOf_cons_self]
      omega
    · obtain ⟨hc, hd, hge, hlt, hidx⟩ := ih (y + 1) t h
      refine ⟨hc, by simp [hd], by omega, by simp [List.length_cons]; omega, ?_⟩
      intro hnd
      have hne : t.dni ≠ d := by
        intro he
        rw [he] at hd
        exact (List.nodup_cons.mp hnd).1 hd
      rw [List.indexOf_cons_ne _ (Ne.symm hne)]
      have := hidx (List.nodup_cons.mp hnd).2
      omega

lemma layoutCats_y_le (filt : List Record) (cats : List String) :
    ∀ y : Nat, y ≤ (layoutCats filt y cats).2.2 := by
  induction cats with
  | nil =>
    intro y
    simp [layoutCats]
  | cons c cs ih =>
    intro y
    cases hc : (filt.filter (fun r => r.categoria == c)).isEmpty
    · have h2 := ih (y + (uniqueDnis (filt.filter (fun r => r.categoria == c))).length + 2)
      simp only [layoutCats, hc, Bool.false_eq_true, if_false]
      omega
    · simp only [layoutCats, hc, if_true]
      exact ih y

lemma layoutCats_trace_bounds (filt : List Record) (cats : List String) :
    ∀ (y : Nat) (t : Trace), t ∈ (layoutCats filt y cats).1 →
      y ≤ t.row ∧ t.row + 3 ≤ (layoutCats filt y cats).2.2 := by
  induction cats with
  | nil =>
    intro y t h
    simp [layoutCats] at h
  | cons c cs ih =>
    intro y t h
    cases hc : (filt.filter (fun r => r.categoria == c)).isEmpty
    · simp only [layoutCats, hc, Bool.false_eq_true, if_false, List.mem_append] at h ⊢
      have hy := layoutCats_y_le filt cs
        (y + (uniqueDnis (filt.filter (fun r => r.categoria == c))).length + 2)
      rcases h with h | h
      · obtain ⟨_, _, hge, hlt, _⟩ := mem_rowsForDnis _ _ _ _ _ h
        constructor
        · exact hge
        · omega
      · have := ih (y + (uniqueDnis (filt.filter (fun r => r.categoria == c))).length + 2) t h
        constructor
        · omega
        · omega
    · simp only [layoutCats, hc, if_true] at h ⊢
      exact ih y t h

lemma layoutCats_trace_cat (filt : List Record) (cats : List String) :
    ∀ (y : Nat) (t : Trace), t ∈ (layoutCats filt y cats).1 →
      t.categoria ∈ cats ∧
        (filt.filter (fun r => r.categoria == t.categoria)).isEmpty = false := by
  induction cats with
  | nil =>
    intro y t h
    simp [layoutCats] at h
  | cons c cs ih =>
    intro y t h
    cases hc : (filt.filter (fun r => r.categoria == c)).isEmpty
    · simp only [layoutCats, hc, Bool.false_eq_true, if_false, List.mem_append] at h
      rcases h with h | h
      · obtain ⟨hcat, _, _⟩ := mem_rowsForDnis _ _ _ _ _ h
        rw [hcat]
        exact ⟨List.mem_cons_self _ _, hc⟩
      · obtain ⟨h1, h2⟩ := ih _ t h
        exact ⟨List.mem_cons_of_mem _ h1, h2⟩
    · simp only [layoutCats, hc, if_true] at h
      obtain ⟨h1, h2⟩ := ih y t h
      exact ⟨List.mem_cons_of_mem _ h1, h2⟩

lemma layoutCats_order (filt : List Record) (cats : List String) (hnd : cats.Nodup) :
    ∀ (y : Nat) (t1 t2 : Trace), t1 ∈ (layoutCats filt y cats).1 →
      t2 ∈ (layoutCats filt y cats).1 →
      cats.indexOf t1.categoria < cats.indexOf t2.categoria → t1.row + 3 ≤ t2.row := by
  induction cats with
  | nil =>
    intro y t1 t2 h1 h2 hlt
    simp [layoutCats] at h1
  | cons c cs ih =>
    intro y t1 t2 h1 h2 hlt
    obtain ⟨hcn, hcsnd⟩ := List.nodup_cons.mp hnd
    cases hc : (filt.filter (fun r => r.categoria == c)).isEmpty
    · simp only [layoutCats, hc, Bool.false_eq_true, if_false, List.mem_append] at h1 h2
      rcases h1 with h1 | h1 <;> rcases h2 with h2 | h2
      · obtain ⟨hcat1, _, _⟩ := mem_rowsForDnis _ _ _ _ _ h1
        obtain ⟨hcat2, _, _⟩ := mem_rowsForDnis _ _ _ _ _ h2
        rw [hcat1, hcat2] at hlt
        omega
      · obtain ⟨_, _, hge, hlt2, _⟩ := mem_rowsForDnis _ _ _ _ _ h1
        have hb := (layoutCats_trace_bounds filt cs
          (y + (uniqueDnis (filt.filter (fun r => r.categoria == c))).length + 2) t2 h2).1
        omega
      · obtain ⟨hcat2, _, _⟩ := mem_rowsForDnis _ _ _ _ _ h2
        obtain ⟨hmem1, hne1⟩ := layoutCats_trace_cat filt cs _ t1 h1
        have hne : t1.categoria ≠ c := fun he => hcn (he ▸ hmem1)
        rw [hcat2, List.indexOf_cons_self, List.indexOf_cons_ne _ (Ne.symm hne)] at hlt
        omega
      · obtain ⟨hmem1, hne1⟩ := layoutCats_trace_cat filt cs _ t1 h1
        obtain ⟨hmem2, hne2⟩ := layoutCats_trace_cat filt cs _ t2 h2
        have hne1c : t1.categoria ≠ c := fun he => hcn (he ▸ hmem1)
        have hne2c : t2.categoria ≠ c := fun he => hcn (he ▸ hmem2)
        rw [List.indexOf_cons_ne _ (Ne.symm hne1c), List.indexOf_cons_ne _ (Ne.symm hne2c)] at hlt
        exact ih hcsnd _ t1 t2 h1 h2 (by omega)
    · simp only [layoutCats, hc, if_true] at h1 h2
      obtain ⟨hmem1, hne1⟩ := layoutCats_trace_cat filt cs _ t1 h1
      obtain ⟨hmem2, hne2⟩ := layoutCats_trace_cat filt cs _ t2 h2
      have hne1c : t1.categoria ≠ c := by
        intro he
        rw [he] at hne1
        rw [hne1] at hc
        exact Bool.false_ne_true hc
      have hne2c : t2.categoria ≠ c := by
        intro he
        rw [he] at hne2
        rw [hne2] at hc
        exact Bool.false_ne_true hc
      rw [List.indexOf_cons_ne _ (Ne.symm hne1c), List.indexOf_cons_ne _ (Ne.symm hne2c)] at hlt
      exact ih hcsnd y t1 t2 h1 h2 (by omega)

lemma layoutCats_row_eq (filt : List Record) (cats : List String) (hnd : cats.Nodup) :
    ∀ (y : Nat) (t1 t2 : Trace), t1 ∈ (layoutCats filt y cats).1 →
      t2 ∈ (layoutCats filt y cats).1 →
      t1.categoria = t2.categoria → t1.dni = t2.dni → t1.row = t2.row := by
  induction cats with
  | nil =>
    intro y t1 t2 h1 h2 hcat hdni
    simp [layoutCats] at h1
  | cons c cs ih =>
    intro y t1 t2 h1 h2 hcat hdni
    obtain ⟨hcn, hcsnd⟩ := List.nodup_cons.mp hnd
    cases hc : (filt.filter (fun r => r.categoria == c)).isEmpty
    · simp only [layoutCats, hc, Bool.false_eq_true, if_false, List.mem_append] at h1 h2
      rcases h1 with h1 | h1 <;> rcases h2 with h2 | h2
      · obtain ⟨hcat1, hdni1, _, _, hidx1⟩ := mem_rowsForDnis _ _ _ _ _ h1
        obtain ⟨hcat2, hdni2, _, _, hidx2⟩ := mem_rowsForDnis _ _ _ _ _ h2
        have hn := uniqueDnis_nodup (filt.filter (fun r => r.categoria == c))
        rw [hidx1 hn, hidx2 hn, hdni]
      · obtain ⟨hcat1, _, _⟩ := mem_rowsForDnis _ _ _ _ _ h1
        obtain ⟨hmem2, _⟩ := layoutCats_trace_cat filt cs _ t2 h2
        exact absurd (by rw [← hcat, hcat1] at hmem2; exact hmem2) hcn
      · obtain ⟨hcat2, _, _⟩ := mem_rowsForDnis _ _ _ _ _ h2
        obtain ⟨hmem1, _⟩ := layoutCats_trace_cat filt cs _ t1 h1
        exact absurd (by rw [hcat, hcat2] at hmem1; exact hmem1) hcn
      · exact ih hcsnd _ t1 t2 h1 h2 hcat hdni
    · simp only [layoutCats, hc, if_true] at h1 h2
      exact ih hcsnd y t1 t2 h1 h2 hcat hdni

lemma layoutCats_row_ne (filt : List Record) (cats : List String) (hnd : cats.Nodup) :
    ∀ (y : Nat) (t1 t2 : Trace), t1 ∈ (layoutCats filt y cats).1 →
      t2 ∈ (layoutCats filt y cats).1 →
      ¬(t1.categoria = t2.categoria ∧ t1.dni = t2.dni) → t1.row ≠ t2.row := by
  induction cats with
  | nil =>
    intro y t1 t2 h1 h2 hne
    simp [layoutCats] at h1
  | cons c cs ih =>
    intro y t1 t2 h1 h2 hne
    obtain ⟨hcn, hcsnd⟩ := List.nodup_cons.mp hnd
    cases hc : (filt.filter (fun r => r.categoria == c)).isEmpty
    · simp only [layoutCats, hc, Bool.false_eq_true, if_false, List.mem_append] at h1 h2
      have hy := layoutCats_y_le filt cs
        (y + (uniqueDnis (filt.filter (fun r => r.categoria == c))).length + 2)
      rcases h1 with h1 | h1 <;> rcases h2 with h2 | h2
      · obtain ⟨hcat1, hdni1, _, _, hidx1⟩ := mem_rowsForDnis _ _ _ _ _ h1
        obtain ⟨hcat2, hdni2, _, _, hidx2⟩ := mem_rowsForDnis _ _ _ _ _ h2
        have hdd : t1.dni ≠ t2.dni := by
          intro he
          exact hne ⟨hcat1.trans hcat2.symm, he⟩
        have hn := uniqueDnis_nodup (filt.filter (fun r => r.categoria == c))
        rw [hidx1 hn, hidx2 hn]
        intro he
        have hix : (uniqueDnis (filt.filter (fun r => r.categoria == c))).indexOf t1.dni =
            (uniqueDnis (filt.filter (fun r => r.categoria == c))).indexOf t2.dni := by
          omega
        exact hdd ((List.indexOf_inj hdni1 hdni2).mp hix)
      · obtain ⟨_, _, _, hlt1, _⟩ := mem_rowsForDnis _ _ _ _ _ h1
        have hb := (layoutCats_trace_bounds filt cs _ t2 h2).1
        omega
      · obtain ⟨_, _, _, hlt2, _⟩ := mem_rowsForDnis _ _ _ _ _ h2
        have hb := (layoutCats_trace_bounds filt cs _ t1 h1).1
        omega
      · exact ih hcsnd _ t1 t2 h1 h2 hne
    · simp only [layoutCats, hc, if_true] at h1 h2
      exact ih hcsnd y t1 t2 h1 h2 hne

/-- Total height contribution of each category: nothing for a skipped empty
category, one row per distinct person plus the separator of 2 otherwise. -/
def heightSum (filt : List Record) (cats : List String) : Nat :=
  (cats.map (fun c =>
    if (filt.filter (fun r => r.categoria == c)).isEmpty then 0
    else (uniqueDnis (filt.filter (fun r => r.categoria == c))).length + 2)).sum

lemma layoutCats_height (filt : List Record) (cats : List String) :
    ∀ y : Nat, (layoutCats filt y cats).2.2 = y + heightSum filt cats := by
  induction cats with
  | nil =>
    intro y
    simp [layoutCats, heightSum]
  | cons c cs ih =>
    intro y
    cases hc : (filt.filter (fun r => r.categoria == c)).isEmpty
    · have h2 := ih (y + (uniqueDnis (filt.filter (fun r => r.categoria == c))).length + 2)
      simp only [layoutCats, hc, Bool.false_eq_true, if_false, heightSum, List.map_cons,
        List.sum_cons] at h2 ⊢
      omega
    · have h2 := ih y
      simp only [layoutCats, hc, if_true, heightSum, List.map_cons, List.sum_cons] at h2 ⊢
      omega

lemma layoutCats_pos_head (filt : List Record) (cats : List String) :
    ∀ (y : Nat) (p : String × Nat), ((layoutCats filt y cats).2.1).head? = some p → p.2 = y := by
  induction cats with
  | nil =>
    intro y p h
    simp [layoutCats] at h
  | cons c cs ih =>
    intro y p h
    cases hc : (filt.filter (fun r => r.categoria == c)).isEmpty
    · simp only [layoutCats, hc, Bool.false_eq_true, if_false, List.head?_cons] at h
      injection h with h
      rw [← h]
    · simp only [layoutCats, hc, if_true] at h
      exact ih y p h

lemma create_timeline_chart_eq (rows : List Record) (cats : List String)
    (ts : List Trace) (ps : List (String × Nat)) (h : Nat)
    (hE : create_timeline_chart (some rows) cats = some (ts, ps, h)) :
    ts = (layoutCats (rows.filter (fun r => decide (r.categoria ∈ cats))) 0 cats).1 ∧
    ps = (layoutCats (rows.filter (fun r => decide (r.categoria ∈ cats))) 0 cats).2.1 ∧
    h = (layoutCats (rows.filter (fun r => decide (r.categoria ∈ cats))) 0 cats).2.2 := by
  simp only [create_timeline_chart] at hE
  cases h1 : rows.isEmpty <;> rw [h1] at hE
  · cases h2 : cats.isEmpty <;> rw [h2] at hE
    · simp only [Bool.or_self, Bool.or_false, Bool.false_or, Bool.false_eq_true, if_false] at hE
      cases h3 : (rows.filter (fun r => decide (r.categoria ∈ cats))).isEmpty <;> rw [h3] at hE
      · simp only [Bool.false_eq_true, if_false] at hE
        rw [layout_foldl_eq] at hE
        simp only [List.nil_append, Option.some.injEq, Prod.mk.injEq] at hE
        exact ⟨hE.1.symm, hE.2.1.symm, hE.2.2.symm⟩
      · simp at hE
    · simp at hE
  · simp at hE

lemma foldr_max_le (l : List Nat) (M : Nat) (h : ∀ x ∈ l, x ≤ M) : l.foldr max 0 ≤ M := by
  induction l with
  | nil => simp
  | cons a t ih =>
    simp only [List.foldr_cons]
    have h1 := h a (List.mem_cons_self a t)
    have h2 := ih (fun x hx => h x (List.mem_cons_of_mem a hx))
    omega

lemma le_foldr_max (l : List Nat) (x : Nat) (h : x ∈ l) : x ≤ l.foldr max 0 := by
  induction l with
  | nil => simp at h
  | cons a t ih =>
    simp only [List.foldr_cons]
    rcases List.mem_cons.mp h with h | h
    · omega
    · have := ih h
      omega

lemma mem_grid_years (kA kB : Nat) (h : kA ≤ kB) (x : Nat) :
    x ∈ (List.range (kB + 1 - kA)).map (fun j => (kA + j) / 12) ↔
      kA / 12 ≤ x ∧ x ≤ kB / 12 := by
  simp only [List.mem_map, List.mem_range]
  constructor
  · rintro ⟨j, hj, rfl⟩
    exact ⟨Nat.div_le_div_right (by omega), Nat.div_le_div_right (by omega)⟩
  · rintro ⟨h1, h2⟩
    by_cases hc : 12 * x ≤ kA
    · exact ⟨0, by omega, by omega⟩
    · exact ⟨12 * x - kA, by omega, by omega⟩

lemma grid_years_max (kA kB : Nat) (h : kA ≤ kB) :
    ((List.range (kB + 1 - kA)).map (fun j => (kA + j) / 12)).foldr max 0 = kB / 12 := by
  apply le_antisymm
  · apply foldr_max_le
    intro x hx
    exact ((mem_grid_years kA kB h x).mp hx).2
  · apply le_foldr_max
    exact (mem_grid_years kA kB h (kB / 12)).mpr ⟨Nat.div_le_div_right h, le_refl _⟩

lemma filter_range_ge (A : Nat) : ∀ n : Nat,
    (List.range n).filter (fun x => decide (A ≤ x)) = List.range' A (n - A) := by
  intro n
  induction n with
  | zero => simp
  | succ n ih =>
    rw [List.range_succ, List.filter_append, ih]
    by_cases h : A ≤ n
    · have he : n + 1 - A = (n - A) + 1 := by omega
      rw [he, List.range'_1_concat]
      have he2 : A + (n - A) = n := by omega
      rw [he2]
      simp [h]
    · have h1 : n + 1 - A = 0 := by omega
      have h2 : n - A = 0 := by omega
      rw [h1, h2]
      simp [h]

lemma pySortedSet_grid (kA kB : Nat) (h : kA ≤ kB) :
    pySortedSet ((List.range (kB + 1 - kA)).map (fun j => (kA + j) / 12)) =
      List.range' (kA / 12) (kB / 12 + 1 - kA / 12) := by
  unfold pySortedSet
  rw [grid_years_max kA kB h]
  have hcongr : (List.range (kB / 12 + 1)).filter
        (fun x => decide (x ∈ (List.range (kB + 1 - kA)).map (fun j => (kA + j) / 12))) =
      (List.range (kB / 12 + 1)).filter (fun x => decide (kA / 12 ≤ x)) := by
    apply List.filter_congr
    intro x hx
    rw [List.mem_range] at hx
    rw [decide_eq_decide, mem_grid_years kA kB h x]
    constructor
    · exact fun hp => hp.1
    · intro hp
      exact ⟨hp, by omega⟩
  rw [hcongr, filter_range_ge]

lemma range'_drop_one (A m : Nat) :
    (List.range' A (m + 1)).drop 1 = List.range' (A + 1) m := by
  rw [List.range'_succ]
  rfl

lemma chain_lt_range' (s n : Nat) : List.Chain' (fun x y => x < y) (List.range' s n) := by
  rw [List.chain'_iff_get]
  intro i hi
  simp only [List.length_range'] at hi
  simp only [List.get_eq_getElem, List.getElem_range']
  omega

lemma yearMarks_mem (a b : Date) (ha : a.Valid) (hb : b.Valid) (Y : Nat) :
    Y ∈ yearMarks a b ↔ rataDie a < rataDie (jan1 Y) ∧ rataDie (jan1 Y) ≤ rataDie b := by
  unfold yearMarks
  rw [List.mem_range'_1, jan1_gt_iff a ha Y, jan1_le_iff b hb Y]
  omega

lemma filt_endpoints (rows : List Record) (cats : List String) (fmin fmax : Date)
    (hval : ∀ r ∈ rows, r.falta.Valid ∧ r.fbaja.Valid ∧ rataDie r.falta ≤ rataDie r.fbaja)
    (hmin : minD ((rows.filter (fun r => decide (r.categoria ∈ cats))).map
      (fun r => r.falta)) = some fmin)
    (hmax : maxD ((rows.filter (fun r => decide (r.categoria ∈ cats))).map
      (fun r => r.fbaja)) = some fmax) :
    fmin.Valid ∧ fmax.Valid ∧ rataDie fmin ≤ rataDie fmax := by
  obtain ⟨hm1, hm2⟩ := minD_spec _ _ hmin
  obtain ⟨hx1, hx2⟩ := maxD_spec _ _ hmax
  rw [List.mem_map] at hm1
  obtain ⟨r1, hr1, he1⟩ := hm1
  rw [List.mem_map] at hx1
  obtain ⟨r2, hr2, he2⟩ := hx1
  have hv1 := hval r1 (List.mem_of_mem_filter hr1)
  have hv2 := hval r2 (List.mem_of_mem_filter hr2)
  refine ⟨he1 ▸ hv1.1, he2 ▸ hv2.2.1, ?_⟩
  have h1 : rataDie fmin ≤ rataDie r1.falta := hm2 _ (List.mem_map_of_mem _ hr1)
  have h2 : rataDie r1.falta ≤ rataDie r1.fbaja := hv1.2.2
  have h3 : rataDie r1.fbaja ≤ rataDie fmax := hx2 _ (List.mem_map_of_mem _ hr1)
  omega

/-- A sanitised record used as concrete input in several witnesses. -/
def rowA : Record := ⟨"000000001", "A", ⟨2020, 1, 10⟩, ⟨2020, 3, 5⟩, 55⟩

/-- A record spanning a year boundary, for the year mark witnesses. -/
def rowB : Record := ⟨"000000002", "B", ⟨2019, 11, 10⟩, ⟨2020, 2, 5⟩, 87⟩

/-- Two contracts of the same person in the same category. -/
def rowsPair : List Record :=
  [⟨"000000001", "A", ⟨2020, 1, 10⟩, ⟨2020, 2, 1⟩, 22⟩,
   ⟨"000000001", "A", ⟨2020, 3, 1⟩, ⟨2020, 4, 1⟩, 31⟩]

/-- A raw record that the sanitiser keeps. -/
def rawGood : RawRecord := ⟨some "1", some "A", some ⟨2020, 1, 1⟩, some ⟨2020, 1, 2⟩⟩

/-- C9: every public operation of the pipeline is a pure function of its
arguments in this embedding: re-invocation on the same input returns an
identical result, with identical ordering of months, counts, rows and
categories, and no state carries over between invocations. -/
theorem C9_determinism (t : RawTable) (df : Option (List Record)) (cats : List String)
    (datos : List (String × (List Date × List Nat))) :
    load_data t = load_data t ∧
    calculate_active_contracts_by_month df cats = calculate_active_contracts_by_month df cats ∧
    create_timeline_chart df cats = create_timeline_chart df cats ∧
    timelineYearMarks df cats = timelineYearMarks df cats ∧
    activeChartYearMarks datos = activeChartYearMarks datos :=
  ⟨rfl, rfl, rfl, rfl, rfl⟩

/-- C10: when the raw table lacks any of the required columns DNI, CATEGORIA,
Falta or Fbaja, load_data fails the whole batch and returns none, rather than
rejecting records individually. -/
theorem C10_missing_column_fails_batch (t : RawTable)
    (h : t.hasDNI = false ∨ t.hasCATEGORIA = false ∨ t.hasFalta = false ∨
      t.hasFbaja = false) :
    load_data t = none := by
  unfold load_data
  rcases h with h | h | h | h <;> simp [h]

/-- C10 witness: a table without the DNI column, whose single row would have
been kept, still yields none. -/
theorem C10_witness : load_data ⟨false, true, true, true, [rawGood]⟩ = none :=
  C10_missing_column_fails_batch ⟨false, true, true, true, [rawGood]⟩ (Or.inl rfl)

/-- C4: a record with end date strictly before start date is always rejected;
duration exactly 10000 is retained; 10001 is rejected; and rejection is whole
record, so a rejected record leaves the sanitised list and every downstream
aggregation and layout unchanged. -/
theorem C4_rejection_invariants (r : RawRecord) (fa fb : Date) :
    (r.falta = some fa → r.fbaja = some fb → rataDie fb < rataDie fa →
      sanitizeRecord r = none) ∧
    (∀ d c : String, r = ⟨some d, some c, some fa, some fb⟩ →
      (rataDie fb : Int) - (rataDie fa : Int) = 10000 →
      (sanitizeRecord r).isSome = true) ∧
    (r.falta = some fa → r.fbaja = some fb →
      (rataDie fb : Int) - (rataDie fa : Int) = 10001 → sanitizeRecord r = none) ∧
    (sanitizeRecord r = none → ∀ l1 l2 : List RawRecord,
      sanitize (l1 ++ r :: l2) = sanitize (l1 ++ l2) ∧
      ∀ cats : List String,
        calculate_active_contracts_by_month (some (sanitize (l1 ++ r :: l2))) cats =
          calculate_active_contracts_by_month (some (sanitize (l1 ++ l2))) cats ∧
        create_timeline_chart (some (sanitize (l1 ++ r :: l2))) cats =
          create_timeline_chart (some (sanitize (l1 ++ l2))) cats) := by
  refine ⟨?_, ?_, ?_, ?_⟩
  · intro h1 h2 h3
    rcases r with ⟨rd, rc, rfa, rfb⟩
    simp only at h1 h2
    subst h1
    subst h2
    cases rd <;> cases rc <;> simp [sanitizeRecord] <;> omega
  · intro d c he hd
    subst he
    simp only [sanitizeRecord]
    rw [hd]
    norm_num
  · intro h1 h2 h3
    rcases r with ⟨rd, rc, rfa, rfb⟩
    simp only at h1 h2
    subst h1
    subst h2
    cases rd <;> cases rc <;> simp [sanitizeRecord] <;> omega
  · intro hn l1 l2
    have hs : sanitize (l1 ++ r :: l2) = sanitize (l1 ++ l2) := by
      simp [sanitize, List.filterMap_append, List.filterMap_cons, hn]
    exact ⟨hs, fun cats => ⟨by rw [hs], by rw [hs]⟩⟩

/-- C4 witness: the spec example end before start is rejected, a 10000 day
record is kept, a 10001 day record is rejected, and dropping a rejected row
leaves the sanitised batch unchanged. -/
theorem C4_witness :
    sanitizeRecord ⟨some "1", some "A", some ⟨2021, 5, 1⟩, some ⟨2021, 4, 1⟩⟩ = none ∧
    (sanitizeRecord ⟨some "1", some "A", some ⟨2000, 1, 1⟩, some ⟨2027, 5, 19⟩⟩).isSome = true ∧
    sanitizeRecord ⟨some "1", some "A", some ⟨2000, 1, 1⟩, some ⟨2027, 5, 20⟩⟩ = none ∧
    sanitize ([] ++ ⟨some "1", some "A", some ⟨2021, 5, 1⟩, some ⟨2021, 4, 1⟩⟩ :: [rawGood]) =
      sanitize ([] ++ [rawGood]) :=
  ⟨(C4_rejection_invariants _ ⟨2021, 5, 1⟩ ⟨2021, 4, 1⟩).1 rfl rfl (by decide),
   (C4_rejection_invariants _ ⟨2000, 1, 1⟩ ⟨2027, 5, 19⟩).2.1 "1" "A" rfl (by decide),
   (C4_rejection_invariants _ ⟨2000, 1, 1⟩ ⟨2027, 5, 20⟩).2.2.1 rfl rfl (by decide),
   ((C4_rejection_invariants _ ⟨2021, 5, 1⟩ ⟨2021, 4, 1⟩).2.2.2
     ((C4_rejection_invariants _ ⟨2021, 5, 1⟩ ⟨2021, 4, 1⟩).1 rfl rfl (by decide))
     [] [rawGood]).1⟩

/-- C3 counterexample: with a non-empty dataframe and an empty category
selection the aggregator raises instead of returning empty results, so the
claim as stated is false. -/
theorem C3_counterexample :
    calculate_active_contracts_by_month (some [rowA]) [] =
      .error "ValueError: Neither start nor end can be NaT" := rfl

/-- C3 amended: a None or empty dataframe yields an empty mapping, which is
distinguishable from a failure; but a non-empty dataframe whose post-filter
subset is empty, which covers an empty selection, makes the aggregator raise
from the month grid construction rather than return empty results. -/
theorem C3_empty_aggregation (cats : List String) (rows : List Record) :
    calculate_active_contracts_by_month none cats = .ok [] ∧
    calculate_active_contracts_by_month (some []) cats = .ok [] ∧
    (rows ≠ [] → rows.filter (fun r => decide (r.categoria ∈ cats)) = [] →
      calculate_active_contracts_by_month (some rows) cats =
        .error "ValueError: Neither start nor end can be NaT") := by
  refine ⟨rfl, rfl, ?_⟩
  intro h1 h2
  cases rows with
  | nil => exact absurd rfl h1
  | cons a t =>
    simp only [calculate_active_contracts_by_month, List.isEmpty_cons, Bool.false_eq_true,
      if_false]
    rw [h2]
    rfl

/-- C3 witness: the amended behaviour on the concrete empty selection. -/
theorem C3_witness :
    ([rowA] ≠ [] ∧ [rowA].filter (fun r => decide (r.categoria ∈ ([] : List String))) = []) ∧
    calculate_active_contracts_by_month (some [rowA]) [] =
      .error "ValueError: Neither start nor end can be NaT" :=
  ⟨⟨by simp, rfl⟩, (C3_empty_aggregation [] [rowA]).2.2 (by simp) rfl⟩

lemma monthStarts_years (A B : Date) :
    (monthStarts A B).map (fun d => d.year) =
      (List.range (monthIdx B + 1 - monthIdx A)).map (fun j => (monthIdx A + j) / 12) := by
  simp only [monthStarts, List.map_map]
  rfl

lemma map_zero_replicate (l : List Date) :
    l.map (fun _ => (0 : Nat)) = List.replicate l.length 0 := by
  induction l with
  | nil => rfl
  | cons a t ih => simp [ih, List.replicate_succ]

lemma calc_ok_shape (rows : List Record) (cats : List String) (fmin fmax : Date)
    (res : List (String × (List Date × List Nat)))
    (hrows : rows ≠ [])
    (hmin : minD ((rows.filter (fun r => decide (r.categoria ∈ cats))).map
      (fun r => r.falta)) = some fmin)
    (hmax : maxD ((rows.filter (fun r => decide (r.categoria ∈ cats))).map
      (fun r => r.fbaja)) = some fmax)
    (hok : calculate_active_contracts_by_month (some rows) cats = .ok res) :
    res = cats.map (fun c =>
      (c, (monthStarts (floorMonth fmin) (floorMonth fmax),
        (monthStarts (floorMonth fmin) (floorMonth fmax)).map (fun m =>
          (((rows.filter (fun r => decide (r.categoria ∈ cats))).filter
            (fun r => r.categoria == c)).filter
            (fun r => dateLE r.falta m && dateLE m r.fbaja)).length)))) := by
  cases rows with
  | nil => exact absurd rfl hrows
  | cons a t =>
    simp only [calculate_active_contracts_by_month, List.isEmpty_cons, Bool.false_eq_true,
      if_false] at hok
    rw [hmin, hmax] at hok
    simp only [Except.ok.injEq] at hok
    exact hok.symm

/-- C5: for a non-empty validated filtered set the month grid starts at the
month floor of the minimal start, ends at the month floor of the maximal end
inclusive, advances by exactly one calendar month at each step with December
rollover, and month floors ignore the day of month of the source dates. -/
theorem C5_month_grid (rows : List Record) (cats : List String) (fmin fmax : Date)
    (hval : ∀ r ∈ rows, r.falta.Valid ∧ r.fbaja.Valid ∧ rataDie r.falta ≤ rataDie r.fbaja)
    (hmin : minD ((rows.filter (fun r => decide (r.categoria ∈ cats))).map
      (fun r => r.falta)) = some fmin)
    (hmax : maxD ((rows.filter (fun r => decide (r.categoria ∈ cats))).map
      (fun r => r.fbaja)) = some fmax) :
    (monthStarts (floorMonth fmin) (floorMonth fmax)).head? = some (floorMonth fmin) ∧
    (monthStarts (floorMonth fmin) (floorMonth fmax)).getLast? = some (floorMonth fmax) ∧
    List.Chain' (fun a b => b = succMonth a ∧ monthIdx b = monthIdx a + 1)
      (monthStarts (floorMonth fmin) (floorMonth fmax)) ∧
    (∀ d1 d2 : Date, d1.year = d2.year → d1.month = d2.month →
      floorMonth d1 = floorMonth d2) := by
  obtain ⟨hv1, hv2, hle⟩ := filt_endpoints rows cats fmin fmax hval hmin hmax
  have hk : monthIdx (floorMonth fmin) ≤ monthIdx (floorMonth fmax) := by
    rw [monthIdx_floorMonth, monthIdx_floorMonth]
    exact monthIdx_le_of_rataDie_le fmin fmax hv1 hv2 hle
  refine ⟨?_, ?_, monthStarts_chain _ _, ?_⟩
  · rw [monthStarts_head _ _ hk, monthIdx_floorMonth,
      firstOfIdx_monthIdx fmin hv1.2.1 hv1.2.2.1]
  · rw [monthStarts_getLast _ _ hk, monthIdx_floorMonth,
      firstOfIdx_monthIdx fmax hv2.2.1 hv2.2.2.1]
  · intro d1 d2 h1 h2
    simp [floorMonth, h1, h2]

/-- C5 witness: the grid of the concrete record from November 2019 to
February 2020, including the December to January rollover. -/
theorem C5_witness :
    (monthStarts (floorMonth ⟨2019, 11, 10⟩) (floorMonth ⟨2020, 2, 5⟩)).head? =
      some (floorMonth ⟨2019, 11, 10⟩) ∧
    (monthStarts (floorMonth ⟨2019, 11, 10⟩) (floorMonth ⟨2020, 2, 5⟩)).getLast? =
      some (floorMonth ⟨2020, 2, 5⟩) ∧
    List.Chain' (fun a b => b = succMonth a ∧ monthIdx b = monthIdx a + 1)
      (monthStarts (floorMonth ⟨2019, 11, 10⟩) (floorMonth ⟨2020, 2, 5⟩)) :=
  ⟨(C5_month_grid [rowB] ["B"] ⟨2019, 11, 10⟩ ⟨2020, 2, 5⟩ (by decide) rfl rfl).1,
   (C5_month_grid [rowB] ["B"] ⟨2019, 11, 10⟩ ⟨2020, 2, 5⟩ (by decide) rfl rfl).2.1,
   (C5_month_grid [rowB] ["B"] ⟨2019, 11, 10⟩ ⟨2020, 2, 5⟩ (by decide) rfl rfl).2.2.1⟩

/-- C1: in the aggregator result, the count of a selected category at grid
position j is exactly the number of records of that category whose closed
interval contains the sampling instant: start at most the month point and end
at least the month point. -/
theorem C1_containment (rows : List Record) (cats : List String)
    (res : List (String × (List Date × List Nat))) (c : String)
    (ms : List Date) (cnts : List Nat) (fmin fmax : Date)
    (hrows : rows ≠ []) (hmem : c ∈ cats)
    (hmin : minD ((rows.filter (fun r => decide (r.categoria ∈ cats))).map
      (fun r => r.falta)) = some fmin)
    (hmax : maxD ((rows.filter (fun r => decide (r.categoria ∈ cats))).map
      (fun r => r.fbaja)) = some fmax)
    (hok : calculate_active_contracts_by_month (some rows) cats = .ok res)
    (hin : (c, (ms, cnts)) ∈ res)
    (j : Nat) (hj : j < ms.length) :
    cnts[j]? = some (((rows.filter (fun r => decide (r.categoria = c))).filter
      (fun r => decide (rataDie r.falta ≤ rataDie ms[j] ∧
        rataDie ms[j] ≤ rataDie r.fbaja))).length) := by
  have hres := calc_ok_shape rows cats fmin fmax res hrows hmin hmax hok
  subst hres
  rw [List.mem_map] at hin
  obtain ⟨c0, hc0, heq⟩ := hin
  simp only [Prod.mk.injEq] at heq
  obtain ⟨hceq, hmeq, hcnteq⟩ := heq
  subst hceq
  subst hmeq
  subst hcnteq
  rw [List.getElem?_map, List.getElem?_eq_getElem hj]
  simp only [Option.map_some', Option.some.injEq]
  have hfilter : (rows.filter (fun r => decide (r.categoria ∈ cats))).filter
      (fun r => r.categoria == c0) = rows.filter (fun r => decide (r.categoria = c0)) := by
    rw [List.filter_filter]
    apply List.filter_congr
    intro r hr
    rw [Bool.eq_iff_iff]
    simp only [Bool.and_eq_true, beq_iff_eq, decide_eq_true_eq]
    exact ⟨fun h => h.1, fun h => ⟨h, h ▸ hmem⟩⟩
  have hpred : ∀ m : Date, (fun r : Record => dateLE r.falta m && dateLE m r.fbaja) =
      (fun r : Record => decide (rataDie r.falta ≤ rataDie m ∧
        rataDie m ≤ rataDie r.fbaja)) := by
    intro m
    funext r
    simp [dateLE, Bool.decide_and]
  rw [hfilter, hpred]

/-- C1 witness: the count of category A at the February sampling point of the
concrete dataset is 1, the one record containing the instant. -/
theorem C1_witness :
    ([0, 1, 1] : List Nat)[1]? =
      some ((([rowA].filter (fun r => decide (r.categoria = "A"))).filter
        (fun r => decide (rataDie r.falta ≤
            rataDie (([⟨2020, 1, 1⟩, ⟨2020, 2, 1⟩, ⟨2020, 3, 1⟩] : List Date)[1]) ∧
          rataDie (([⟨2020, 1, 1⟩, ⟨2020, 2, 1⟩, ⟨2020, 3, 1⟩] : List Date)[1]) ≤
            rataDie r.fbaja))).length) :=
  C1_containment [rowA] ["A", "B"]
    [("A", ([⟨2020, 1, 1⟩, ⟨2020, 2, 1⟩, ⟨2020, 3, 1⟩], [0, 1, 1])),
     ("B", ([⟨2020, 1, 1⟩, ⟨2020, 2, 1⟩, ⟨2020, 3, 1⟩], [0, 0, 0]))]
    "A" [⟨2020, 1, 1⟩, ⟨2020, 2, 1⟩, ⟨2020, 3, 1⟩] [0, 1, 1] ⟨2020, 1, 10⟩ ⟨2020, 3, 5⟩
    (by simp) (by simp) rfl rfl rfl (by simp) 1 (by simp)

/-- C7 counterexample: a category in the selection but absent from the data
receives a zero valued series of the full grid length, which is not an empty
series, so the claim as stated is false. -/
theorem C7_counterexample :
    calculate_active_contracts_by_month (some [rowA]) ["A", "B"] =
      .ok [("A", ([⟨2020, 1, 1⟩, ⟨2020, 2, 1⟩, ⟨2020, 3, 1⟩], [0, 1, 1])),
           ("B", ([⟨2020, 1, 1⟩, ⟨2020, 2, 1⟩, ⟨2020, 3, 1⟩], [0, 0, 0]))] ∧
    ([0, 0, 0] : List Nat) ≠ [] := ⟨rfl, by simp⟩

/-- C7 amended: a category present in the selection but absent from the data
yields, without an error, a count series of zeros of the same length as the
month grid, one entry per month point. -/
theorem C7_absent_category (rows : List Record) (cats : List String)
    (res : List (String × (List Date × List Nat))) (c : String)
    (ms : List Date) (cnts : List Nat) (fmin fmax : Date)
    (hrows : rows ≠ [])
    (hmin : minD ((rows.filter (fun r => decide (r.categoria ∈ cats))).map
      (fun r => r.falta)) = some fmin)
    (hmax : maxD ((rows.filter (fun r => decide (r.categoria ∈ cats))).map
      (fun r => r.fbaja)) = some fmax)
    (hok : calculate_active_contracts_by_month (some rows) cats = .ok res)
    (hin : (c, (ms, cnts)) ∈ res)
    (habs : ∀ r ∈ rows, r.categoria ≠ c) :
    cnts = List.replicate ms.length 0 := by
  have hres := calc_ok_shape rows cats fmin fmax res hrows hmin hmax hok
  subst hres
  rw [List.mem_map] at hin
  obtain ⟨c0, hc0, heq⟩ := hin
  simp only [Prod.mk.injEq] at heq
  obtain ⟨hceq, hmeq, hcnteq⟩ := heq
  subst hceq
  subst hmeq
  subst hcnteq
  have hnil : (rows.filter (fun r => decide (r.categoria ∈ cats))).filter
      (fun r => r.categoria == c0) = [] := by
    rw [List.filter_eq_nil_iff]
    intro r hr
    have hrr := habs r (List.mem_of_mem_filter hr)
    simp [hrr]
  rw [hnil]
  simp only [List.filter_nil, List.length_nil]
  exact map_zero_replicate _

/-- C7 witness: the concrete absent category B receives three zeros for the
three month grid. -/
theorem C7_witness :
    ([0, 0, 0] : List Nat) =
      List.replicate ([⟨2020, 1, 1⟩, ⟨2020, 2, 1⟩, ⟨2020, 3, 1⟩] : List Date).length 0 :=
  C7_absent_category [rowA] ["A", "B"]
    [("A", ([⟨2020, 1, 1⟩, ⟨2020, 2, 1⟩, ⟨2020, 3, 1⟩], [0, 1, 1])),
     ("B", ([⟨2020, 1, 1⟩, ⟨2020, 2, 1⟩, ⟨2020, 3, 1⟩], [0, 0, 0]))]
    "B" [⟨2020, 1, 1⟩, ⟨2020, 2, 1⟩, ⟨2020, 3, 1⟩] [0, 0, 0] ⟨2020, 1, 10⟩ ⟨2020, 3, 5⟩
    (by simp) rfl rfl rfl (by simp) (by decide)

/-- The first bar of the C2 counterexample. -/
def exT1 : Trace := ⟨"A", "000000001", ⟨2020, 1, 10⟩, ⟨2020, 2, 1⟩, 0⟩

/-- The second bar of the C2 counterexample, same person, same row. -/
def exT2 : Trace := ⟨"A", "000000001", ⟨2020, 3, 1⟩, ⟨2020, 4, 1⟩, 0⟩

/-- C2 counterexample: two distinct contracts of one person are both drawn at
row 0, so distinct surviving intervals do not always get distinct rows and the
per interval row counter of the claim is false: the counter advances once per
person. -/
theorem C2_counterexample :
    create_timeline_chart (some rowsPair) ["A"] = some ([exT1, exT2], [("A", 0)], 3) ∧
    exT1 ≠ exT2 ∧ exT1.row = exT2.row :=
  ⟨rfl, by decide, rfl⟩

/-- C2 corrected: the assigned row is a function of the category and person
group.  Bars of the same category and person always share one row, and bars
of different groups always get different rows; the row counter advances once
per person, so a person with N contracts in a category occupies one row. -/
theorem C2_rows_per_person (rows : List Record) (cats : List String)
    (ts : List Trace) (ps : List (String × Nat)) (h : Nat) (hnd : cats.Nodup)
    (hE : create_timeline_chart (some rows) cats = some (ts, ps, h))
    (t1 t2 : Trace) (h1 : t1 ∈ ts) (h2 : t2 ∈ ts) :
    (t1.categoria = t2.categoria ∧ t1.dni = t2.dni → t1.row = t2.row) ∧
    (¬(t1.categoria = t2.categoria ∧ t1.dni = t2.dni) → t1.row ≠ t2.row) := by
  obtain ⟨hts, hps, hh⟩ := create_timeline_chart_eq rows cats ts ps h hE
  subst hts
  constructor
  · intro hx
    exact layoutCats_row_eq _ cats hnd 0 t1 t2 h1 h2 hx.1 hx.2
  · intro hx
    exact layoutCats_row_ne _ cats hnd 0 t1 t2 h1 h2 hx

/-- C2 witness: the two same person bars of the concrete layout share a row. -/
theorem C2_witness : exT1.row = exT2.row :=
  (C2_rows_per_person rowsPair ["A"] [exT1, exT2] [("A", 0)] 3 (by decide) rfl exT1 exT2
    (by simp) (by simp)).1 ⟨rfl, rfl⟩

/-- The single bar of category A in the C6 witness layout. -/
def exTA : Trace := ⟨"A", "000000001", ⟨2020, 1, 10⟩, ⟨2020, 3, 5⟩, 0⟩

/-- The single bar of category B in the C6 witness layout, two blank rows
below the A block. -/
def exTB : Trace := ⟨"B", "000000002", ⟨2019, 11, 10⟩, ⟨2020, 2, 5⟩, 3⟩

/-- C6: for categories in caller order, every row of an earlier block lies at
least 3 below every row of a later block, leaving at least 2 blank separator
rows; the first recorded anchor position is row 0; and the total height is
the sum over categories of zero for an empty category, persons plus 2
otherwise, so empty categories contribute no rows and no separator. -/
theorem C6_block_ordering (rows : List Record) (cats : List String)
    (ts : List Trace) (ps : List (String × Nat)) (h : Nat) (hnd : cats.Nodup)
    (hE : create_timeline_chart (some rows) cats = some (ts, ps, h)) :
    (∀ t1 ∈ ts, ∀ t2 ∈ ts,
      cats.indexOf t1.categoria < cats.indexOf t2.categoria → t1.row + 3 ≤ t2.row) ∧
    (∀ p : String × Nat, ps.head? = some p → p.2 = 0) ∧
    h = heightSum (rows.filter (fun r => decide (r.categoria ∈ cats))) cats := by
  obtain ⟨hts, hps, hh⟩ := create_timeline_chart_eq rows cats ts ps h hE
  subst hts
  subst hps
  subst hh
  refine ⟨?_, ?_, ?_⟩
  · intro t1 h1 t2 h2 hlt
    exact layoutCats_order _ cats hnd 0 t1 t2 h1 h2 hlt
  · intro p hp
    exact layoutCats_pos_head _ cats 0 p hp
  · simpa using layoutCats_height _ cats 0

/-- C6 witness: in the two category layout the A bar sits at least 3 rows
above the B bar, the first anchor is row 0, and the height is 6. -/
theorem C6_witness :
    exTA.row + 3 ≤ exTB.row ∧
    (6 : Nat) = heightSum
      ([rowA, rowB].filter (fun r => decide (r.categoria ∈ ["A", "B"]))) ["A", "B"] :=
  ⟨(C6_block_ordering [rowA, rowB] ["A", "B"] [exTA, exTB] [("A", 0), ("B", 3)] 6
      (by decide) rfl).1 exTA (by simp) exTB (by simp) (by decide),
   (C6_block_ordering [rowA, rowB] ["A", "B"] [exTA, exTB] [("A", 0), ("B", 3)] 6
      (by decide) rfl).2.2⟩

/-- C8: both views mark exactly the years whose January 1 lies strictly after
the minimum and at most the maximum of the data of that view: the timeline
view over the filtered record extent, the monthly view over its month grid
extent; the marks are strictly ascending, and empty inputs yield no marks. -/
theorem C8_year_boundaries (rows : List Record) (cats : List String) (fmin fmax : Date)
    (datos : List (String × (List Date × List Nat)))
    (hval : ∀ r ∈ rows, r.falta.Valid ∧ r.fbaja.Valid ∧ rataDie r.falta ≤ rataDie r.fbaja)
    (hrows : rows ≠ []) (hcats : cats ≠ [])
    (hmin : minD ((rows.filter (fun r => decide (r.categoria ∈ cats))).map
      (fun r => r.falta)) = some fmin)
    (hmax : maxD ((rows.filter (fun r => decide (r.categoria ∈ cats))).map
      (fun r => r.fbaja)) = some fmax)
    (hok : calculate_active_contracts_by_month (some rows) cats = .ok datos) :
    timelineYearMarks (some rows) cats = yearMarks fmin fmax ∧
    activeChartYearMarks datos = yearMarks fmin fmax ∧
    (∀ Y : Nat, Y ∈ yearMarks fmin fmax ↔
      rataDie fmin < rataDie (jan1 Y) ∧ rataDie (jan1 Y) ≤ rataDie fmax) ∧
    (∀ Y : Nat, Y ∈ yearMarks fmin fmax ↔
      rataDie (floorMonth fmin) < rataDie (jan1 Y) ∧
        rataDie (jan1 Y) ≤ rataDie (floorMonth fmax)) ∧
    List.Chain' (fun x y => x < y) (yearMarks fmin fmax) ∧
    timelineYearMarks none cats = [] ∧
    activeChartYearMarks [] = [] := by
  obtain ⟨hv1, hv2, hle⟩ := filt_endpoints rows cats fmin fmax hval hmin hmax
  have hfilt : rows.filter (fun r => decide (r.categoria ∈ cats)) ≠ [] := by
    intro he
    rw [he] at hmin
    simp [minD] at hmin
  have hk : monthIdx (floorMonth fmin) ≤ monthIdx (floorMonth fmax) := by
    rw [monthIdx_floorMonth, monthIdx_floorMonth]
    exact monthIdx_le_of_rataDie_le fmin fmax hv1 hv2 hle
  have htl : timelineYearMarks (some rows) cats = yearMarks fmin fmax := by
    have hre : rows.isEmpty = false := by
      cases rows
      · exact absurd rfl hrows
      · rfl
    have hce : cats.isEmpty = false := by
      cases cats
      · exact absurd rfl hcats
      · rfl
    have hfe : (rows.filter (fun r => decide (r.categoria ∈ cats))).isEmpty = false := by
      cases hq : rows.filter (fun r => decide (r.categoria ∈ cats)) with
      | nil => exact absurd hq hfilt
      | cons a l => rfl
    simp only [timelineYearMarks, hre, hce, Bool.or_self, Bool.or_false, Bool.false_or,
      Bool.false_eq_true, if_false, hfe]
    rw [hmin, hmax]
  have hagg : activeChartYearMarks datos = yearMarks fmin fmax := by
    have hres := calc_ok_shape rows cats fmin fmax datos hrows hmin hmax hok
    cases cats with
    | nil => exact absurd rfl hcats
    | cons c cs =>
      subst hres
      simp only [List.map_cons, activeChartYearMarks]
      rw [monthStarts_years, pySortedSet_grid _ _ hk]
      have hm1a := hv1.2.1
      have hm2a := hv1.2.2.1
      have hm1b := hv2.2.1
      have hm2b := hv2.2.2.1
      have hka : monthIdx (floorMonth fmin) / 12 = fmin.year := by
        simp only [monthIdx, floorMonth]
        omega
      have hkb : monthIdx (floorMonth fmax) / 12 = fmax.year := by
        simp only [monthIdx, floorMonth]
        omega
      rw [hka, hkb]
      have hyy : fmin.year ≤ fmax.year := by
        rw [← hka, ← hkb]
        exact Nat.div_le_div_right hk
      have hlen : fmax.year + 1 - fmin.year = (fmax.year - fmin.year) + 1 := by omega
      rw [hlen, range'_drop_one]
      rfl
  refine ⟨htl, hagg, ?_, ?_, ?_, rfl, rfl⟩
  · intro Y
    exact yearMarks_mem fmin fmax hv1 hv2 Y
  · intro Y
    exact yearMarks_mem (floorMonth fmin) (floorMonth fmax)
      (floorMonth_valid fmin hv1) (floorMonth_valid fmax hv2) Y
  · exact chain_lt_range' _ _

/-- C8 witness: the concrete record spanning November 2019 to February 2020
yields the single mark 2020 in both views, with the January 1 2020
characterisation holding. -/
theorem C8_witness :
    timelineYearMarks (some [rowB]) ["B"] = yearMarks ⟨2019, 11, 10⟩ ⟨2020, 2, 5⟩ ∧
    activeChartYearMarks
      [("B", ([⟨2019, 11, 1⟩, ⟨2019, 12, 1⟩, ⟨2020, 1, 1⟩, ⟨2020, 2, 1⟩], [0, 1, 1, 1]))] =
      yearMarks ⟨2019, 11, 10⟩ ⟨2020, 2, 5⟩ ∧
    ((2020 : Nat) ∈ yearMarks ⟨2019, 11, 10⟩ ⟨2020, 2, 5⟩ ↔
      rataDie ⟨2019, 11, 10⟩ < rataDie (jan1 2020) ∧
        rataDie (jan1 2020) ≤ rataDie ⟨2020, 2, 5⟩) ∧
    timelineYearMarks none ["B"] = [] ∧
    activeChartYearMarks [] = [] := by
  have H := C8_year_boundaries [rowB] ["B"] ⟨2019, 11, 10⟩ ⟨2020, 2, 5⟩
    [("B", ([⟨2019, 11, 1⟩, ⟨2019, 12, 1⟩, ⟨2020, 1, 1⟩, ⟨2020, 2, 1⟩], [0, 1, 1, 1]))]
    (by decide) (by simp) (by simp) rfl rfl rfl
  exact ⟨H.1, H.2.1, H.2.2.1 2020, H.2.2.2.2.2.1, H.2.2.2.2.2.2⟩

end Contratos
